import Mathlib

/-
  Shallow embedding of the EECS-678 scheduler project:
  - src/scheduler/src/libpriqueue/libpriqueue.c  (comparator-ordered linked list)
  - src/scheduler/src/libscheduler/libscheduler.c (scheduler state machine)

  The priority queue is modelled as a `List Job` (the chain of nodes from
  `m_front`); `m_size` is the list's length.  C `int` values are modelled as
  `Int`; the C `float` accumulators hold exact integer values in every
  reachable state of the simulation, so they are modelled as `Int` as well.
  A dereference of a NULL pointer in the C source is modelled as an explicit
  `fault` outcome (`CResult.fault`, or `none` for the scheduler handlers).
-/

namespace Sched

/-- The `job_t` struct of libscheduler.c. -/
structure Job where
  id : Int
  arrival_time : Int
  start_time : Int
  remaining_time : Int
  running_time : Int
  priority : Int
deriving DecidableEq

/-- Outcome of a libpriqueue call returning a `void*`:
`val j` is a non-NULL job pointer, `null` is a returned NULL, and
`fault` marks a NULL-pointer dereference in the C code. -/
inductive CResult where
  | fault
  | null
  | val (j : Job)
deriving DecidableEq

/-! ### libpriqueue.c -/

/-- Inner loop of `priqueue_offer`: `temp` is the current node, `rest` the
nodes after it, `counter` the index counter.  The loop walks while
`temp->next != NULL && comparer(new, temp->next) > 0`, then links the new
node after `temp` and increments the counter once more. -/
def offerLoop (c : Job → Job → Int) (j : Job) (temp : Job) (rest : List Job)
    (counter : Nat) : Nat × List Job :=
  match rest with
  | [] => (counter + 1, [temp, j])
  | nxt :: rest2 =>
    if 0 < c j nxt then
      let r := offerLoop c j nxt rest2 (counter + 1)
      (r.1, temp :: r.2)
    else
      (counter + 1, temp :: j :: nxt :: rest2)

/-- `priqueue_offer`: returns the counter the C code returns and the new
chain.  An empty queue takes the new node as front (counter 0); if the new
element compares `<= 0` against the front it becomes the new front but the
counter is incremented to 1; otherwise the walk loop runs. -/
def priqueue_offer (c : Job → Job → Int) (q : List Job) (j : Job) :
    Nat × List Job :=
  match q with
  | [] => (0, [j])
  | f :: rest =>
    if c j f ≤ 0 then (1, j :: f :: rest)
    else offerLoop c j f rest 0

/-- `priqueue_peek`: the C code returns `q->m_front->value` without a NULL
check, so peeking an empty queue dereferences NULL. -/
def priqueue_peek (q : List Job) : CResult :=
  match q with
  | [] => CResult.fault
  | j :: _ => CResult.val j

/-- `priqueue_poll`: removes and returns the front, NULL when empty. -/
def priqueue_poll (q : List Job) : CResult × List Job :=
  match q with
  | [] => (CResult.null, [])
  | j :: rest => (CResult.val j, rest)

/-- `priqueue_at`: the bounds check is `index > q->m_size` (not `>=`);
otherwise the code walks `index` steps (zero steps for a negative index,
since the `for` loop guard fails immediately) and dereferences the node
reached, which is NULL exactly when `index = m_size`. -/
def priqueue_at (q : List Job) (index : Int) : CResult :=
  if (q.length : Int) < index then CResult.null
  else
    match q.drop index.toNat with
    | [] => CResult.fault
    | j :: _ => CResult.val j

/-- First loop of `priqueue_remove`: drops leading nodes whose value
compares equal (comparator result 0) to `ptr`. -/
def removeFront (c : Job → Job → Int) (ptr : Job) : List Job → Nat × List Job
  | [] => (0, [])
  | f :: rest =>
    if c f ptr = 0 then
      let r := removeFront c ptr rest
      (r.1 + 1, r.2)
    else (0, f :: rest)

/-- Second loop of `priqueue_remove`: `t1` is `temp1`, `rest` the nodes
after it.  When `temp1->next` matches, it is unlinked and `temp1` then
advances to the node after the removed one (so that node is never itself
tested against `ptr`). -/
def removeInner (c : Job → Job → Int) (ptr : Job) (t1 : Job) (rest : List Job) :
    Nat × List Job :=
  match rest with
  | [] => (0, [t1])
  | nxt :: rest2 =>
    if c nxt ptr = 0 then
      match rest2 with
      | [] => (1, [t1])
      | r :: rs =>
        let p := removeInner c ptr r rs
        (p.1 + 1, t1 :: p.2)
    else
      let p := removeInner c ptr nxt rest2
      (p.1, t1 :: p.2)

/-- `priqueue_remove`: despite its doc comment demanding pointer equality,
the C code tests `q->comparer(..., ptr) == 0` in both loops. -/
def priqueue_remove (c : Job → Job → Int) (q : List Job) (ptr : Job) :
    Nat × List Job :=
  let r := removeFront c ptr q
  match r.2 with
  | [] => (r.1, [])
  | f :: rest =>
    let p := removeInner c ptr f rest
    (r.1 + p.1, p.2)

/-- `priqueue_remove_at`: bounds check is `q->m_front == NULL || index > q->m_size`.
For `index = 0` the front is unlinked.  Otherwise `temp1` walks `index - 1`
steps (zero for a negative index) and `temp1->next` is unlinked via
`temp1->next = temp1->next->next`, which dereferences NULL when `temp1` is
the last node (the `index = m_size` case). -/
def priqueue_remove_at (q : List Job) (index : Int) : CResult × List Job :=
  if q.isEmpty || (q.length : Int) < index then (CResult.null, q)
  else if index = 0 then
    match q with
    | [] => (CResult.null, [])
    | f :: rest => (CResult.val f, rest)
  else
    let k := (index - 1).toNat
    match q.drop k with
    | [] => (CResult.fault, q)
    | _ :: rest2 =>
      match rest2 with
      | [] => (CResult.fault, q)
      | t2 :: rest3 => (CResult.val t2, q.take (k + 1) ++ rest3)

/-- `priqueue_size`. -/
def priqueue_size (q : List Job) : Nat := q.length

/-! ### libscheduler.c comparators -/

/-- `fcfs` comparator. -/
def fcfs (a b : Job) : Int :=
  if a.id = b.id then 0 else a.arrival_time - b.arrival_time

/-- `sjf` comparator. -/
def sjf (a b : Job) : Int :=
  if a.id = b.id then 0
  else if a.running_time ≠ b.running_time then a.running_time - b.running_time
  else a.arrival_time - b.arrival_time

/-- `psjf` comparator. -/
def psjf (a b : Job) : Int :=
  if a.id = b.id then 0
  else if a.remaining_time ≠ b.remaining_time then
    a.remaining_time - b.remaining_time
  else a.arrival_time - b.arrival_time

/-- `pri` comparator. -/
def pri (a b : Job) : Int :=
  if a.id = b.id then 0
  else if a.priority ≠ b.priority then a.priority - b.priority
  else a.arrival_time - b.arrival_time

/-- `ppri` comparator (same body as `pri` in the source). -/
def ppri (a b : Job) : Int :=
  if a.id = b.id then 0
  else if a.priority ≠ b.priority then a.priority - b.priority
  else a.arrival_time - b.arrival_time

/-- `rr` comparator: 0 on equal ids, otherwise 1. -/
def rr (a b : Job) : Int :=
  if a.id = b.id then 0 else 1

/-! ### libscheduler.c state -/

/-- The six values of `scheme_t`. -/
inductive scheme_t where
  | FCFS | SJF | PSJF | PRI | PPRI | RR

/-- The scheduler's global variables: the waiting queue, the comparator and
preemptive flag chosen at startup, the core table `active_cores`
(`none` models a 0/NULL slot), the clock and the statistic accumulators. -/
structure SchedState where
  queue : List Job
  comparer : Job → Job → Int
  preemptive : Bool
  num_cores : Nat
  total_jobs : Int
  curr_time : Int
  waiting_time : Int
  response_time : Int
  turnaround_time : Int
  active_cores : List (Option Job)

/-- `scheduler_start_up`. -/
def scheduler_start_up (cores : Nat) (scheme : scheme_t) : SchedState :=
  let base : SchedState :=
    { queue := [], comparer := fcfs, preemptive := false, num_cores := cores,
      total_jobs := 0, curr_time := 0, waiting_time := 0, response_time := 0,
      turnaround_time := 0, active_cores := List.replicate cores none }
  match scheme with
  | scheme_t.FCFS => { base with comparer := fcfs, preemptive := false }
  | scheme_t.SJF => { base with comparer := sjf, preemptive := false }
  | scheme_t.PSJF => { base with comparer := psjf, preemptive := true }
  | scheme_t.PRI => { base with comparer := pri, preemptive := false }
  | scheme_t.PPRI => { base with comparer := ppri, preemptive := true }
  | scheme_t.RR => { base with comparer := rr, preemptive := false }

/-- `update_remaining_time`: every occupied core's job loses
`time - curr_time` remaining time, then the clock advances. -/
def update_remaining_time (s : SchedState) (time : Int) : SchedState :=
  { s with
    active_cores := s.active_cores.map (Option.map (fun j =>
      { j with remaining_time := j.remaining_time - (time - s.curr_time) })),
    curr_time := time }

/-- The loop in `scheduler_new_job` that finds the lowest-indexed idle core. -/
def firstIdle : List (Option Job) → Option Nat
  | [] => none
  | none :: _ => some 0
  | some _ :: rest => (firstIdle rest).map (· + 1)

/-- The preemption scan of `scheduler_new_job`: `worst` starts as the new
job; scanning cores left to right, core `i` becomes the chosen core and its
occupant the new candidate exactly when `comparer(worst, active_cores[i]) < 0`.
A `none` slot would be a NULL dereference in C; the scan is only reached
when `firstIdle` found no idle core, so every slot is occupied there. -/
def evictLoop (c : Job → Job → Int) :
    List (Option Job) → Nat → Option Nat → Job → Option Nat × Job
  | [], _, core, worst => (core, worst)
  | none :: rest, i, core, worst => evictLoop c rest (i + 1) core worst
  | some jb :: rest, i, core, worst =>
    if c worst jb < 0 then evictLoop c rest (i + 1) (some i) jb
    else evictLoop c rest (i + 1) core worst

/-- The job record `scheduler_new_job` allocates. -/
def newJobOf (job_number time running_time priority : Int) : Job :=
  { id := job_number, arrival_time := time, start_time := -1,
    remaining_time := running_time, running_time := running_time,
    priority := priority }

/-- `scheduler_new_job`. -/
def scheduler_new_job (s0 : SchedState)
    (job_number time running_time priority : Int) : Int × SchedState :=
  let s1 := update_remaining_time s0 time
  let s := { s1 with total_jobs := s1.total_jobs + 1 }
  let job := newJobOf job_number time running_time priority
  match firstIdle s.active_cores with
  | some core =>
    ((core : Int),
     { s with active_cores :=
         s.active_cores.set core (some { job with start_time := time }) })
  | none =>
    if s.preemptive then
      match evictLoop s.comparer s.active_cores 0 none job with
      | (some core, worst) =>
        let worst2 :=
          if time = worst.start_time then { worst with start_time := -1 }
          else worst
        ((core : Int),
         { s with
           active_cores :=
             s.active_cores.set core (some { job with start_time := time }),
           queue := (priqueue_offer s.comparer s.queue worst2).2 })
      | (none, _) =>
        (-1, { s with queue := (priqueue_offer s.comparer s.queue job).2 })
    else
      (-1, { s with queue := (priqueue_offer s.comparer s.queue job).2 })

/-- `scheduler_job_finished`: `none` models the NULL dereference the C code
performs when no job occupies `core_id`.  The non-empty-queue branch inlines
`priqueue_poll` on a queue known to be non-empty. -/
def scheduler_job_finished (s0 : SchedState) (core_id : Nat)
    (job_number time : Int) : Option (Int × SchedState) :=
  let s1 := update_remaining_time s0 time
  match s1.active_cores.getD core_id none with
  | none => none
  | some finished_job =>
    let s :=
      { s1 with
        waiting_time := s1.waiting_time +
          (time - finished_job.running_time - finished_job.arrival_time),
        response_time := s1.response_time +
          (finished_job.start_time - finished_job.arrival_time),
        turnaround_time := s1.turnaround_time +
          (time - finished_job.arrival_time),
        active_cores := s1.active_cores.set core_id none }
    match s.queue with
    | [] => some (-1, s)
    | jb :: rest =>
      let jb2 := if jb.start_time = -1 then { jb with start_time := time }
                 else jb
      some (jb2.id,
        { s with queue := rest,
                 active_cores := s.active_cores.set core_id (some jb2) })

/-- `scheduler_quantum_expired`: `none` models the NULL dereference when no
job occupies `core_id`.  With a non-empty queue the incumbent is offered
back and the new front polled (inlined poll on the offered queue, which is
never empty). -/
def scheduler_quantum_expired (s0 : SchedState) (core_id : Nat) (time : Int) :
    Option (Int × SchedState) :=
  let s := update_remaining_time s0 time
  match s.active_cores.getD core_id none with
  | none => none
  | some job =>
    match s.queue with
    | [] => some (job.id, s)
    | _ :: _ =>
      match (priqueue_offer s.comparer s.queue job).2 with
      | [] => none
      | jb :: rest =>
        let jb2 := if jb.start_time = -1 then { jb with start_time := time }
                   else jb
        some (jb2.id,
          { s with queue := rest,
                   active_cores := s.active_cores.set core_id (some jb2) })

/-- `scheduler_average_waiting_time`. -/
def scheduler_average_waiting_time (s : SchedState) : Rat :=
  if 0 < s.total_jobs then (s.waiting_time : Rat) / (s.total_jobs : Rat) else 0

/-- `scheduler_average_turnaround_time`. -/
def scheduler_average_turnaround_time (s : SchedState) : Rat :=
  if 0 < s.total_jobs then (s.turnaround_time : Rat) / (s.total_jobs : Rat)
  else 0

/-- `scheduler_average_response_time`. -/
def scheduler_average_response_time (s : SchedState) : Rat :=
  if 0 < s.total_jobs then (s.response_time : Rat) / (s.total_jobs : Rat)
  else 0

/-- The `while (queue.m_size > 0) priqueue_poll` loop of
`scheduler_clean_up`. -/
def drain : List Job → List Job
  | [] => []
  | _ :: rest => drain rest

/-- `scheduler_clean_up`: polls the waiting queue empty; the core table is
not touched. -/
def scheduler_clean_up (s : SchedState) : SchedState :=
  { s with queue := drain s.queue }

/-- Repeated insertion starting from an empty queue. -/
def insertAll (c : Job → Job → Int) (jobs : List Job) : List Job :=
  jobs.foldl (fun q j => (priqueue_offer c q j).2) []

/-- Concrete 1-core PSJF state with a long job running since time 0. -/
def c2state : SchedState :=
  (scheduler_new_job (scheduler_start_up 1 scheme_t.PSJF) 1 0 10 0).2

/-- The job `c2state` displaces at time 1 (remaining time refreshed). -/
def c2worst : Job :=
  { id := 1, arrival_time := 0, start_time := 0, remaining_time := 9,
    running_time := 10, priority := 0 }

/-- Configuration of a 1-core RR scheduler with one running job `x` and one
waiting job `y` of distinct ids. -/
def twoJobRR (s : SchedState) (x y : Job) : Prop :=
  s.comparer = rr ∧ s.active_cores = [some x] ∧ s.queue = [y] ∧ x.id ≠ y.id

/-! ### Helper lemmas -/

/-- `update_remaining_time` keeps the comparator. -/
lemma update_comparer (s : SchedState) (t : Int) :
    (update_remaining_time s t).comparer = s.comparer := rfl

/-- `update_remaining_time` keeps the waiting queue. -/
lemma update_queue (s : SchedState) (t : Int) :
    (update_remaining_time s t).queue = s.queue := rfl

/-- `update_remaining_time` keeps the preemptive flag. -/
lemma update_preemptive (s : SchedState) (t : Int) :
    (update_remaining_time s t).preemptive = s.preemptive := rfl

/-- `update_remaining_time` keeps the job counter. -/
lemma update_total_jobs (s : SchedState) (t : Int) :
    (update_remaining_time s t).total_jobs = s.total_jobs := rfl

/-- The list built by `offerLoop` always starts with `temp`. -/
lemma offerLoop_snd_cons (c : Job → Job → Int) (j : Job) :
    ∀ (rest : List Job) (temp : Job) (k : Nat),
      ∃ l, (offerLoop c j temp rest k).2 = temp :: l := by
  intro rest temp k
  cases rest with
  | nil => exact ⟨[j], rfl⟩
  | cons nxt rest2 =>
    rw [offerLoop]
    by_cases h : 0 < c j nxt
    · rw [if_pos h]; exact ⟨_, rfl⟩
    · rw [if_neg h]; exact ⟨_, rfl⟩

/-- The walk loop of `priqueue_offer` preserves the adjacent-order chain
when the comparator is sign-antisymmetric. -/
lemma chain_offerLoop (c : Job → Job → Int)
    (hA : ∀ x y, 0 < c x y → c y x ≤ 0) (j : Job) :
    ∀ (rest : List Job) (temp : Job) (k : Nat),
      List.Chain' (fun u v => c u v ≤ 0) (temp :: rest) →
      0 < c j temp →
      List.Chain' (fun u v => c u v ≤ 0) (offerLoop c j temp rest k).2 := by
  intro rest
  induction rest with
  | nil =>
    intro temp k _ hjt
    rw [offerLoop]
    exact List.chain'_cons.mpr ⟨hA _ _ hjt, List.chain'_singleton j⟩
  | cons nxt rest2 ih =>
    intro temp k hch hjt
    rw [offerLoop]
    rcases List.chain'_cons.mp hch with ⟨htn, hch2⟩
    by_cases h : 0 < c j nxt
    · rw [if_pos h]
      obtain ⟨l, hl⟩ := offerLoop_snd_cons c j rest2 nxt (k + 1)
      have hinner := ih nxt (k + 1) hch2 h
      show List.Chain' (fun u v => c u v ≤ 0)
        (temp :: (offerLoop c j nxt rest2 (k + 1)).2)
      rw [hl] at hinner ⊢
      exact List.chain'_cons.mpr ⟨htn, hinner⟩
    · rw [if_neg h]
      exact List.chain'_cons.mpr ⟨hA _ _ hjt,
        List.chain'_cons.mpr ⟨not_lt.mp h, hch2⟩⟩

/-- `priqueue_offer` preserves the adjacent-order chain when the comparator
is sign-antisymmetric. -/
lemma chain_offer (c : Job → Job → Int)
    (hA : ∀ x y, 0 < c x y → c y x ≤ 0) (q : List Job) (j : Job)
    (hch : List.Chain' (fun u v => c u v ≤ 0) q) :
    List.Chain' (fun u v => c u v ≤ 0) (priqueue_offer c q j).2 := by
  cases q with
  | nil => exact List.chain'_singleton j
  | cons f rest =>
    rw [priqueue_offer]
    by_cases h : c j f ≤ 0
    · rw [if_pos h]
      exact List.chain'_cons.mpr ⟨h, hch⟩
    · rw [if_neg h]
      exact chain_offerLoop c hA j rest f 0 hch (not_le.mp h)

/-- Any sequence of insertions starting from the empty queue produces an
adjacent-order chain, for a sign-antisymmetric comparator. -/
lemma chain_insertAll (c : Job → Job → Int)
    (hA : ∀ x y, 0 < c x y → c y x ≤ 0) (jobs : List Job) :
    List.Chain' (fun u v => c u v ≤ 0) (insertAll c jobs) := by
  suffices h : ∀ (js : List Job) (q : List Job),
      List.Chain' (fun u v => c u v ≤ 0) q →
      List.Chain' (fun u v => c u v ≤ 0)
        (js.foldl (fun acc j => (priqueue_offer c acc j).2) q) by
    exact h jobs [] List.chain'_nil
  intro js
  induction js with
  | nil => intro q hq; exact hq
  | cons j js2 ih =>
    intro q hq
    exact ih _ (chain_offer c hA q j hq)

/-- `priqueue_at` at an in-range natural index returns the element there. -/
lemma priqueue_at_nat (q : List Job) (i : Nat) (h : i < q.length) :
    priqueue_at q (i : Int) = CResult.val (q.get ⟨i, h⟩) := by
  rw [priqueue_at]
  rw [if_neg (by exact_mod_cast not_lt.mpr h.le)]
  rw [Int.toNat_natCast, List.drop_eq_getElem_cons h]
  rfl

/-- `getD` of a mapped option-list. -/
lemma getD_map_option (l : List (Option Job)) (f : Job → Job) (core : Nat) :
    (l.map (Option.map f)).getD core none = (l.getD core none).map f := by
  rw [List.getD_eq_getElem?_getD, List.getD_eq_getElem?_getD,
    List.getElem?_map]
  cases l[core]? with
  | none => rfl
  | some o => cases o <;> rfl

/-- Reading a core slot after `update_remaining_time` gives the original
occupant with its remaining time refreshed. -/
lemma getD_update_remaining (s : SchedState) (time : Int) (core : Nat) :
    (update_remaining_time s time).active_cores.getD core none =
      (s.active_cores.getD core none).map (fun j =>
        { j with remaining_time := j.remaining_time - (time - s.curr_time) }) :=
  getD_map_option s.active_cores _ core

/-! ### Theorems -/

/-- Claim C1 (amended): `scheduler_job_finished` on an occupied core accrues
`waiting_time += time - running_time - arrival_time`,
`response_time += start_time - arrival_time` and
`turnaround_time += time - arrival_time`, but the counter consumed by the
average accessors (`total_jobs`) is left unchanged by it; that counter is
instead incremented exactly once per `scheduler_new_job` call. -/
theorem C1_accrual (s : SchedState) (core_id : Nat)
    (jn tf ta rt pr : Int) (fj : Job)
    (h : s.active_cores.getD core_id none = some fj) :
    (scheduler_job_finished s core_id jn tf).map (fun p =>
        (p.2.waiting_time, p.2.response_time, p.2.turnaround_time,
         p.2.total_jobs)) =
      some (s.waiting_time + (tf - fj.running_time - fj.arrival_time),
            s.response_time + (fj.start_time - fj.arrival_time),
            s.turnaround_time + (tf - fj.arrival_time),
            s.total_jobs) ∧
    ((scheduler_new_job s jn ta rt pr).2).total_jobs = s.total_jobs + 1 := by
  have h2 : s.active_cores[core_id]? = some (some fj) := by
    rw [List.getD_eq_getElem?_getD] at h
    cases hx : s.active_cores[core_id]? with
    | none => rw [hx] at h; simp at h
    | some o => rw [hx] at h; cases o <;> simp_all
  constructor
  · cases hq : s.queue with
    | nil =>
      simp [scheduler_job_finished, update_remaining_time, h2, hq]
    | cons jb rest =>
      by_cases hst : jb.start_time = -1
      · simp [scheduler_job_finished, update_remaining_time, h2, hq,
          if_pos hst]
      · simp [scheduler_job_finished, update_remaining_time, h2, hq,
          if_neg hst]
  · simp only [scheduler_new_job]
    split
    · rfl
    · split
      · split <;> rfl
      · rfl

/-- Witness for C1 (amended) on a concrete 1-core FCFS run. -/
theorem C1_accrual_witness :
    (let s := (scheduler_new_job (scheduler_start_up 1 scheme_t.FCFS) 7 0 5 0).2
     let fj : Job := { id := 7, arrival_time := 0, start_time := 0,
                       remaining_time := 5, running_time := 5, priority := 0 }
     s.active_cores.getD 0 none = some fj ∧
     ((scheduler_job_finished s 0 7 5).map (fun p =>
         (p.2.waiting_time, p.2.response_time, p.2.turnaround_time,
          p.2.total_jobs)) =
       some (s.waiting_time + (5 - fj.running_time - fj.arrival_time),
             s.response_time + (fj.start_time - fj.arrival_time),
             s.turnaround_time + (5 - fj.arrival_time),
             s.total_jobs) ∧
      ((scheduler_new_job s 7 9 3 1).2).total_jobs = s.total_jobs + 1)) :=
  ⟨by decide, C1_accrual _ 0 7 5 9 3 1 _ (by decide)⟩

/-- Claim C10: with a non-empty queue, a negative index passes the
`index > m_size` bounds check and the walk loop runs zero iterations, so
`priqueue_at` returns the head element — the same element `priqueue_peek`
returns — rather than an absent result. -/
theorem C10_negative_index_gives_head (q : List Job) (i : Int)
    (hq : q ≠ []) (hi : i < 0) :
    ∃ j, priqueue_at q i = CResult.val j ∧ priqueue_peek q = CResult.val j := by
  match q with
  | [] => exact absurd rfl hq
  | f :: t =>
    refine ⟨f, ?_, rfl⟩
    rw [priqueue_at]
    have h1 : ¬ (((f :: t).length : Int) < i) := by
      have h0 : (0 : Int) ≤ ((f :: t).length : Int) := Int.ofNat_nonneg _
      omega
    rw [if_neg h1, Int.toNat_of_nonpos hi.le]
    rfl

/-- Witness for C10 at a concrete queue and index. -/
theorem C10_witness :
    ([newJobOf 1 0 5 0] ≠ ([] : List Job)) ∧ (-1 : Int) < 0 ∧
    ∃ j, priqueue_at [newJobOf 1 0 5 0] (-1) = CResult.val j ∧
      priqueue_peek [newJobOf 1 0 5 0] = CResult.val j :=
  ⟨by decide, by decide,
   C10_negative_index_gives_head [newJobOf 1 0 5 0] (-1) (by decide) (by decide)⟩

/-- C1, counterexample: the counter consumed by the average accessors
(`total_jobs`) is incremented by `scheduler_new_job` (job arrival), not by
`scheduler_job_finished`.  Starting a 1-core FCFS scheduler, one arrival
takes the counter from 0 to 1, and finishing that job leaves it at 1. -/
theorem C1_counter_by_arrival :
    (scheduler_start_up 1 scheme_t.FCFS).total_jobs = 0 ∧
    ((scheduler_new_job (scheduler_start_up 1 scheme_t.FCFS) 7 0 5 0).2).total_jobs = 1 ∧
    ((scheduler_job_finished
        (scheduler_new_job (scheduler_start_up 1 scheme_t.FCFS) 7 0 5 0).2
        0 7 5).map (fun p => p.2.total_jobs)) = some 1 := by
  decide

/-- Claim C2: under a preemptive discipline with every core busy, the
eviction core is chosen by the left-to-right sequential reduction
`evictLoop` (candidate starts as the new job; core `i` is chosen and its
occupant becomes the candidate exactly when the current candidate compares
strictly earlier than the occupant), and when a core is chosen the new job
takes it with `start_time = time`, the displaced job's `start_time` is
reset to unset exactly when it equals `time`, and the displaced job is
re-inserted into the waiting sequence. -/
theorem C2_preemption (s : SchedState) (jn time rt pr : Int) (core : Nat)
    (worst : Job)
    (hp : s.preemptive = true)
    (hb : firstIdle (update_remaining_time s time).active_cores = none)
    (hscan : evictLoop s.comparer (update_remaining_time s time).active_cores
      0 none (newJobOf jn time rt pr) = (some core, worst)) :
    (∀ (c : Job → Job → Int) (jb : Job) (rest : List (Option Job)) (i : Nat)
       (co : Option Nat) (w : Job),
       evictLoop c (some jb :: rest) i co w =
         (if c w jb < 0 then evictLoop c rest (i + 1) (some i) jb
          else evictLoop c rest (i + 1) co w)) ∧
    scheduler_new_job s jn time rt pr =
      ((core : Int),
       { update_remaining_time s time with
         total_jobs := s.total_jobs + 1,
         active_cores := (update_remaining_time s time).active_cores.set core
           (some { newJobOf jn time rt pr with start_time := time }),
         queue := (priqueue_offer s.comparer s.queue
           (if time = worst.start_time then { worst with start_time := -1 }
            else worst)).2 }) := by
  refine ⟨fun c jb rest i co w => rfl, ?_⟩
  simp only [scheduler_new_job, update_comparer, update_queue,
    update_preemptive, update_total_jobs, hb, hp, hscan, if_true]

/-- Witness for C2: a 1-core PSJF system whose busy core is preempted by a
shorter job. -/
theorem C2_preemption_witness :
    c2state.preemptive = true ∧
    firstIdle (update_remaining_time c2state 1).active_cores = none ∧
    evictLoop c2state.comparer (update_remaining_time c2state 1).active_cores
      0 none (newJobOf 2 1 2 0) = (some 0, c2worst) ∧
    ((∀ (c : Job → Job → Int) (jb : Job) (rest : List (Option Job)) (i : Nat)
        (co : Option Nat) (w : Job),
        evictLoop c (some jb :: rest) i co w =
          (if c w jb < 0 then evictLoop c rest (i + 1) (some i) jb
           else evictLoop c rest (i + 1) co w)) ∧
     scheduler_new_job c2state 2 1 2 0 =
       ((0 : Int),
        { update_remaining_time c2state 1 with
          total_jobs := c2state.total_jobs + 1,
          active_cores := (update_remaining_time c2state 1).active_cores.set 0
            (some { newJobOf 2 1 2 0 with start_time := 1 }),
          queue := (priqueue_offer c2state.comparer c2state.queue
            (if (1 : Int) = c2worst.start_time
             then { c2worst with start_time := -1 } else c2worst)).2 })) :=
  ⟨by decide, by decide, by decide,
   C2_preemption c2state 2 1 2 0 0 c2worst (by decide) (by decide)
     (by decide)⟩

/-- C3: after two arrivals on a 1-core FCFS scheduler (one running, one
waiting), `scheduler_clean_up` empties the waiting queue but leaves the
job on core 0 in place: the core table is not drained. -/
theorem C3_clean_up_leaves_core :
    (scheduler_clean_up
      (scheduler_new_job
        (scheduler_new_job (scheduler_start_up 1 scheme_t.FCFS) 1 0 5 0).2
        2 1 5 0).2).queue = [] ∧
    (scheduler_clean_up
      (scheduler_new_job
        (scheduler_new_job (scheduler_start_up 1 scheme_t.FCFS) 1 0 5 0).2
        2 1 5 0).2).active_cores =
      [some { id := 1, arrival_time := 0, start_time := 0,
              remaining_time := 4, running_time := 5, priority := 0 }] := by
  decide

/-- C4: `priqueue_peek` on the empty queue dereferences the NULL front
pointer (a fault), instead of returning the absent sentinel. -/
theorem C4_peek_empty_faults : priqueue_peek [] = CResult.fault := by
  decide

/-- C5: `priqueue_remove` removes a comparator-equal element of different
identity.  Under the `sjf` comparator, a job with id 2 and the same
running and arrival time as the id-1 target compares 0, and removing the
id-1 target deletes it (count 1) even though no identity-equal element is
present. -/
theorem C5_remove_uses_comparator :
    priqueue_remove sjf [newJobOf 2 3 5 0] (newJobOf 1 3 5 0) = (1, []) ∧
    (newJobOf 2 3 5 0).id ≠ (newJobOf 1 3 5 0).id := by
  decide

/-- C6: on a queue of size 1, `priqueue_at 1` and `priqueue_remove_at 1`
dereference NULL (fault) instead of returning absent — the bounds check is
`index > size`, not `index >= size`; indices strictly above the size do
return the absent sentinel. -/
theorem C6_at_size_faults :
    priqueue_at [newJobOf 1 0 5 0] 1 = CResult.fault ∧
    (priqueue_remove_at [newJobOf 1 0 5 0] 1).1 = CResult.fault ∧
    priqueue_at [newJobOf 1 0 5 0] 2 = CResult.null := by
  decide

/-- C7: offering a job that sorts before the single existing element
places it at index 0 (the new head) but returns 1, not 0. -/
theorem C7_head_insert_returns_one :
    (priqueue_offer fcfs [newJobOf 1 5 5 0] (newJobOf 2 3 5 0)).2 =
      [newJobOf 2 3 5 0, newJobOf 1 5 5 0] ∧
    (priqueue_offer fcfs [newJobOf 1 5 5 0] (newJobOf 2 3 5 0)).1 = 1 := by
  decide

/-- Claim C8: with a job on the core and an empty waiting sequence,
`scheduler_quantum_expired` returns the incumbent's id and changes nothing
beyond the clock bookkeeping; and in the 1-core RR configuration with two
jobs of distinct ids (one running, one waiting), each call swaps which job
occupies the core and returns the id of the newly scheduled job, with the
two-job configuration re-established with the roles exchanged — so
repeated calls alternate the two ids strictly and the jobs are never both
on a core. -/
theorem C8_quantum_rotation :
    (∀ (s : SchedState) (core : Nat) (time : Int) (j : Job),
       s.active_cores.getD core none = some j → s.queue = [] →
       scheduler_quantum_expired s core time =
         some (j.id, update_remaining_time s time)) ∧
    (∀ (s : SchedState) (x y : Job) (time : Int), twoJobRR s x y →
       ∃ x2 y2 s2, scheduler_quantum_expired s 0 time = some (y.id, s2) ∧
         x2.id = x.id ∧ y2.id = y.id ∧ twoJobRR s2 y2 x2) := by
  constructor
  · intro s core time j h hq
    have h2 : (update_remaining_time s time).active_cores.getD core none =
        some { j with remaining_time :=
                 j.remaining_time - (time - s.curr_time) } := by
      rw [getD_update_remaining, h]; rfl
    simp only [scheduler_quantum_expired, h2, update_queue, hq]
  · rintro ⟨q, comp, pre, nc, tj, ct, wt, rsp, tt, ac⟩ x y time ⟨hc, ha, hq, hne⟩
    replace hc : comp = rr := hc
    replace ha : ac = [some x] := ha
    replace hq : q = [y] := hq
    subst hc ha hq
    by_cases hst : y.start_time = -1
    · refine ⟨{ x with remaining_time := x.remaining_time - (time - ct) },
        { y with start_time := time }, ?_, ?_, rfl, rfl, ?_⟩
      · exact { queue := [{ x with remaining_time :=
                  x.remaining_time - (time - ct) }],
                comparer := rr, preemptive := pre, num_cores := nc,
                total_jobs := tj, curr_time := time, waiting_time := wt,
                response_time := rsp, turnaround_time := tt,
                active_cores := [some { y with start_time := time }] }
      · simp [scheduler_quantum_expired, update_remaining_time,
          priqueue_offer, offerLoop, rr, hne, hst]
      · exact ⟨rfl, rfl, rfl, fun hcontra => hne hcontra.symm⟩
    · refine ⟨{ x with remaining_time := x.remaining_time - (time - ct) },
        y, ?_, ?_, rfl, rfl, ?_⟩
      · exact { queue := [{ x with remaining_time :=
                  x.remaining_time - (time - ct) }],
                comparer := rr, preemptive := pre, num_cores := nc,
                total_jobs := tj, curr_time := time, waiting_time := wt,
                response_time := rsp, turnaround_time := tt,
                active_cores := [some y] }
      · simp [scheduler_quantum_expired, update_remaining_time,
          priqueue_offer, offerLoop, rr, hne, hst]
      · exact ⟨rfl, rfl, rfl, fun hcontra => hne hcontra.symm⟩

/-- Witness for C8: concrete two-job RR configuration and an empty-queue
call. -/
theorem C8_quantum_rotation_witness :
    (let s0 : SchedState :=
      { queue := [], comparer := rr, preemptive := false, num_cores := 1,
        total_jobs := 1, curr_time := 0, waiting_time := 0,
        response_time := 0, turnaround_time := 0,
        active_cores := [some (newJobOf 1 0 5 0)] }
     scheduler_quantum_expired s0 0 2 =
       some ((newJobOf 1 0 5 0).id, update_remaining_time s0 2)) ∧
    (let s : SchedState :=
      { queue := [newJobOf 2 1 4 0], comparer := rr, preemptive := false,
        num_cores := 1, total_jobs := 2, curr_time := 0, waiting_time := 0,
        response_time := 0, turnaround_time := 0,
        active_cores := [some (newJobOf 1 0 5 0)] }
     ∃ x2 y2 s2, scheduler_quantum_expired s 0 2 =
         some ((newJobOf 2 1 4 0).id, s2) ∧
       x2.id = (newJobOf 1 0 5 0).id ∧ y2.id = (newJobOf 2 1 4 0).id ∧
       twoJobRR s2 y2 x2) :=
  ⟨C8_quantum_rotation.1 _ 0 2 (newJobOf 1 0 5 0) (by decide) (by decide),
   C8_quantum_rotation.2 _ (newJobOf 1 0 5 0) (newJobOf 2 1 4 0) 2
     ⟨rfl, rfl, rfl, by decide⟩⟩

/-- The `fcfs` comparator is sign-antisymmetric. -/
lemma fcfs_sign_antisymm : ∀ x y : Job, 0 < fcfs x y → fcfs y x ≤ 0 := by
  intro x y h
  rw [fcfs] at h
  rw [fcfs]
  by_cases hid : x.id = y.id
  · rw [if_pos hid] at h; omega
  · rw [if_neg hid] at h
    rw [if_neg (fun hyx => hid hyx.symm)]
    omega

/-- Claim C9 (amended): for every comparator `c` that is sign-antisymmetric
(`0 < c x y → c y x ≤ 0`) and every sequence of insertions into an empty
queue, reading the queue by `at(i)`, `at(i+1)` yields adjacent elements
whose comparison is never strictly positive.  (The repository's `rr`
comparator is not sign-antisymmetric and violates the invariant.) -/
theorem C9_insert_monotone (c : Job → Job → Int)
    (hA : ∀ x y, 0 < c x y → c y x ≤ 0) (jobs : List Job) (i : Nat)
    (h : i + 1 < (insertAll c jobs).length) :
    ∃ x y, priqueue_at (insertAll c jobs) (i : Int) = CResult.val x ∧
      priqueue_at (insertAll c jobs) ((i + 1 : Nat) : Int) = CResult.val y ∧
      c x y ≤ 0 := by
  have hch := chain_insertAll c hA jobs
  have h1 : i < (insertAll c jobs).length := by omega
  exact ⟨(insertAll c jobs).get ⟨i, h1⟩, (insertAll c jobs).get ⟨i + 1, h⟩,
    priqueue_at_nat _ i h1, priqueue_at_nat _ (i + 1) h,
    List.chain'_iff_get.mp hch i (by omega)⟩

/-- Witness for C9 (amended) with the `fcfs` comparator and two concrete
insertions. -/
theorem C9_insert_monotone_witness :
    (∀ x y : Job, 0 < fcfs x y → fcfs y x ≤ 0) ∧
    0 + 1 < (insertAll fcfs [newJobOf 2 4 5 0, newJobOf 1 0 5 0]).length ∧
    (∃ x y,
      priqueue_at (insertAll fcfs [newJobOf 2 4 5 0, newJobOf 1 0 5 0])
        ((0 : Nat) : Int) = CResult.val x ∧
      priqueue_at (insertAll fcfs [newJobOf 2 4 5 0, newJobOf 1 0 5 0])
        ((0 + 1 : Nat) : Int) = CResult.val y ∧
      fcfs x y ≤ 0) :=
  ⟨fcfs_sign_antisymm, by decide,
   C9_insert_monotone fcfs fcfs_sign_antisymm
     [newJobOf 2 4 5 0, newJobOf 1 0 5 0] 0 (by decide)⟩

/-- C9, counterexample: under the repository's `rr` comparator, inserting
two distinct jobs yields adjacent elements whose comparison is strictly
positive, so the monotonic ordering invariant fails for this comparator. -/
theorem C9_rr_not_monotone :
    priqueue_at (insertAll rr [newJobOf 0 0 5 0, newJobOf 1 0 5 0]) 0 =
      CResult.val (newJobOf 0 0 5 0) ∧
    priqueue_at (insertAll rr [newJobOf 0 0 5 0, newJobOf 1 0 5 0]) 1 =
      CResult.val (newJobOf 1 0 5 0) ∧
    0 < rr (newJobOf 0 0 5 0) (newJobOf 1 0 5 0) := by
  decide

end Sched
